import Mathlib

/-!
Verification of the algo-trader repository's adaptive allocation engine and
performance analytics, shallowly embedded over the rationals.

Sources embedded here:
  - src/dynamic_dca_strategy.py   (DynamicDCA multiplier, trend guard, schedule, rescaling)
  - src/momentum_dca_strategy.py  (MomentumDCA / v2 / v3 multipliers, trend guard,
                                   piecewise adaptive multiplier, schedule, rescaling)
  - src/stats.py                  (drawdown episode detector, cashflow-adjusted returns,
                                   XIRR bisection solver)

Machine floats in the source are modelled as exact rationals; the solver's
present-value function, whose fractional real exponentiation has no exact
rational form, is abstracted as a rational-valued function parameter while the
solver's decision logic is embedded literally.
-/

namespace AlgoTrader

/-- Clip helper shared by all strategies: `m = max(m_min, min(m_max, m))`. -/
def clip (mMin mMax m : ℚ) : ℚ := max mMin (min mMax m)

/-- Trend-guard capping step shared by DynamicDCA, MomentumDCAv2 and MomentumDCAv3:
`if guard and (m > 1.0) and (not trend_ok): m = min(m, 1.0)`. -/
def applyTrendGuard (guard : Bool) (ok : Bool) (m : ℚ) : ℚ :=
  if guard = true ∧ 1 < m ∧ ok = false then min m 1 else m

/-- Embedding of `_trend_ok` (identical in DynamicDCA, MomentumDCAv2, MomentumDCAv3):
`lb = min(slope_lookback, len(slow) - 1)`; if `lb <= 0` return False; else require
`close[0] > slow[0]` and `slow[0] - slow[-lb] > 0`.  The indicator line `slow` is
modelled as a function from (non-positive) bar offsets to values. -/
def trend_ok (guard : Bool) (slopeLookback lenSlow : ℤ) (close : ℚ) (slow : ℤ → ℚ) : Bool :=
  if guard = false then true
  else
    let lb := min slopeLookback (lenSlow - 1)
    if lb ≤ 0 then false
    else decide (slow 0 < close) && decide (0 < slow 0 - slow (-lb))

/-- MomentumDCA (v1) multiplier: `m = clip(1 + k*z, m_min, m_max)`. -/
def momentumMultiplier (k mMin mMax z : ℚ) : ℚ :=
  clip mMin mMax (1 + k * z)

/-- DynamicDCA multiplier: `m = clip(1 - k*z, m_min, m_max)` followed by the
trend guard (boosts capped at 1.0 when the trend is not confirmed). -/
def dynamicMultiplier (k mMin mMax z : ℚ) (guard ok : Bool) : ℚ :=
  applyTrendGuard guard ok (clip mMin mMax (1 - k * z))

/-- MomentumDCAv2 multiplier: `m = 1 + k*z`; momentum floor `if z < z_floor: m = m_min`;
clip to `[m_min, m_max]`; then the trend guard. -/
def momentumV2Multiplier (k mMin mMax zFloor z : ℚ) (guard ok : Bool) : ℚ :=
  applyTrendGuard guard ok (clip mMin mMax (if z < zFloor then mMin else 1 + k * z))

/-- Embedding of `MomentumDCAv3._multiplier_from_z`: the five-region piecewise
adaptive multiplier, with the source's degenerate-span fallbacks kept. -/
def multiplier_from_z (mMin mMax zFloor zEntry zFull z : ℚ) : ℚ :=
  if z ≤ zFloor then mMin
  else if zFloor < z ∧ z < 0 then
    (if (0 : ℚ) - zFloor ≤ 0 then 1 else mMin + ((z - zFloor) / (0 - zFloor)) * (1 - mMin))
  else if 0 ≤ z ∧ z < zEntry then 1
  else if zEntry ≤ z ∧ z ≤ zFull then
    (if zFull - zEntry ≤ 0 then mMax else 1 + ((z - zEntry) / (zFull - zEntry)) * (mMax - 1))
  else if zFull < z then mMax
  else 1

/-- MomentumDCAv3 multiplier pipeline: adaptive multiplier from `z_mom`, valuation
guard (`if z_val >= val_cap and m > 1.0: m = 1.0`), trend guard, final safety clip. -/
def momentumV3Multiplier (mMin mMax zFloor zEntry zFull valCap zMom zVal : ℚ)
    (guard ok : Bool) : ℚ :=
  let m0 := multiplier_from_z mMin mMax zFloor zEntry zFull zMom
  let m1 := if valCap ≤ zVal ∧ 1 < m0 then 1 else m0
  clip mMin mMax (applyTrendGuard guard ok m1)

/-- FixedDCA has no tilt at all: every asset's spend multiplier is 1. -/
def fixedMultiplier : ℚ := 1

/-- Cash-constraint rescaling factor (identical in all DCA strategies):
`scale = 1.0; if total_desired > max_deployable: scale = max_deployable / total_desired`. -/
def computeScale (maxDeployable totalDesired : ℚ) : ℚ :=
  if maxDeployable < totalDesired then maxDeployable / totalDesired else 1

/-- Value of the emitted market order for one desired entry `(price, spend)`:
the strategies compute `alloc = spend * scale`, `size = alloc / price` and buy
`size` units at `price`, so the order's value is `size * price`. -/
def orderValue (scale : ℚ) (entry : ℚ × ℚ) : ℚ :=
  entry.2 * scale / entry.1 * entry.1

/-- Values of all emitted orders for the desired map (a list of
`(price, spend)` entries) under a common scale factor. -/
def orderValues (scale : ℚ) (desired : List (ℚ × ℚ)) : List ℚ :=
  desired.map (orderValue scale)

/-- Schedule gate at the top of every `next`: the bar is skipped without
evaluation when `self._last_invest_bar >= 0 and (len(self) - self._last_invest_bar) < interval`. -/
def scheduleBlocks (interval len lastInvestBar : ℤ) : Bool :=
  decide (0 ≤ lastInvestBar) && decide (len - lastInvestBar < interval)

/-- Control skeleton of `next` (identical in DynamicDCA, MomentumDCA, v2, v3) as far
as scheduling and order emission are concerned.  Inputs: the bar number `len`,
the stored `lastInvestBar`, and this bar's `max_deployable` and `total_desired`.
Output: whether the order-emission loop is reached, and the new `lastInvestBar`. -/
def nextSchedule (interval : ℤ) (maxDeployable totalDesired : ℚ)
    (len lastInvestBar : ℤ) : Bool × ℤ :=
  if scheduleBlocks interval len lastInvestBar = true then (false, lastInvestBar)
  else if maxDeployable ≤ 0 then (false, len)
  else if totalDesired ≤ 0 then (false, len)
  else (true, len)

/-- Result record of `_compute_max_drawdown_period` (dates are abstract ordinals). -/
structure DrawdownInfo where
  maxddPct : ℚ
  peakDate : ℕ
  troughDate : ℕ
  recoveryDate : Option ℕ
  peakValue : ℚ
  troughValue : ℚ
deriving DecidableEq, Repr

/-- Scan state of the drawdown loop: the running peak and the retained
maximum-drawdown episode. -/
structure DDState where
  peakValue : ℚ
  peakTs : ℕ
  maxdd : ℚ
  maxPeakValue : ℚ
  maxPeakTs : ℕ
  maxTroughValue : ℚ
  maxTroughTs : ℕ
deriving DecidableEq, Repr

/-- One iteration of the drawdown scan: `if v >= peak_value: update peak; else
dd = v/peak_value - 1; if dd < maxdd: retain episode`. -/
def ddStep (st : DDState) (point : ℕ × ℚ) : DDState :=
  if st.peakValue ≤ point.2 then
    { st with peakValue := point.2, peakTs := point.1 }
  else
    let dd := point.2 / st.peakValue - 1
    if dd < st.maxdd then
      { peakValue := st.peakValue, peakTs := st.peakTs, maxdd := dd,
        maxPeakValue := st.peakValue, maxPeakTs := st.peakTs,
        maxTroughValue := point.2, maxTroughTs := point.1 }
    else st

/-- Recovery scan: first date in the (date-ascending) list whose value is at
least the retained peak value. -/
def findRecovery (threshold : ℚ) : List (ℕ × ℚ) → Option ℕ
  | [] => none
  | point :: rest =>
    if threshold ≤ point.2 then some point.1 else findRecovery threshold rest

/-- Embedding of `_compute_max_drawdown_period` over a date-sorted equity series
(the source sorts its input by date before scanning). -/
def compute_max_drawdown_period (series : List (ℕ × ℚ)) : Option DrawdownInfo :=
  match series with
  | [] => none
  | first :: _ =>
    let init : DDState :=
      { peakValue := first.2, peakTs := first.1, maxdd := 0,
        maxPeakValue := first.2, maxPeakTs := first.1,
        maxTroughValue := first.2, maxTroughTs := first.1 }
    let st := series.foldl ddStep init
    let recovery :=
      if st.maxdd < 0 then
        findRecovery st.maxPeakValue (series.filter fun p => st.maxTroughTs ≤ p.1)
      else none
    some { maxddPct := -st.maxdd * 100,
           peakDate := st.maxPeakTs, troughDate := st.maxTroughTs,
           recoveryDate := recovery,
           peakValue := st.maxPeakValue, troughValue := st.maxTroughValue }

/-- State of the `CashFlowAdjustedReturns` analyzer: the previous bar's
`(date, value)` (None before the first bar) and the recorded return series. -/
structure CFState where
  prev : Option (ℕ × ℚ)
  returns : List (ℕ × ℚ)
deriving DecidableEq, Repr

/-- Embedding of `CashFlowAdjustedReturns.next` for one bar `(date, value)`:
on the first bar only remember the value; afterwards record
`ret = 0.0 if prev_value == 0 else (value - flow(prev_date)) / prev_value - 1`. -/
def cfaStep (flow : ℕ → ℚ) (st : CFState) (bar : ℕ × ℚ) : CFState :=
  match st.prev with
  | none => { prev := some bar, returns := st.returns }
  | some prev =>
    let fl := flow prev.1
    let ret := if prev.2 = 0 then 0 else (bar.2 - fl) / prev.2 - 1
    { prev := some bar, returns := st.returns ++ [(bar.1, ret)] }

/-- Run the analyzer over a whole bar series from its initial state. -/
def cfaRun (flow : ℕ → ℚ) (bars : List (ℕ × ℚ)) : CFState :=
  bars.foldl (cfaStep flow) { prev := none, returns := [] }

/-- Recursive form of the return series produced by the analyzer once a
previous bar exists; used to reason about `cfaRun` by induction. -/
def cfaReturnsFrom (flow : ℕ → ℚ) (prev : ℕ × ℚ) : List (ℕ × ℚ) → List (ℕ × ℚ)
  | [] => []
  | bar :: rest =>
    (bar.1, if prev.2 = 0 then 0 else (bar.2 - flow prev.1) / prev.2 - 1) ::
      cfaReturnsFrom flow bar rest

/-- The ascending candidate upper bounds tried by `xirr`. -/
def hiCandidates : List ℚ := [0, 1/10, 1/4, 1/2, 1, 2, 5, 10, 20, 50, 100]

/-- Outcome of the candidate scan inside `xirr`: an early return (`f_lo == 0`
or `f_cand == 0`), a sign-change bracket, or no bracket found. -/
inductive ScanResult where
  | ret (r : ℚ)
  | bracket (hi fHi : ℚ)
  | noBracket
deriving DecidableEq, Repr

/-- The sign-change test used by `xirr` both when bracketing and when
bisecting: `(a > 0 and b < 0) or (a < 0 and b > 0)`. -/
def signChange (a b : ℚ) : Bool :=
  (decide (0 < a) && decide (b < 0)) || (decide (a < 0) && decide (0 < b))

/-- The candidate loop of `xirr`: for each candidate in order, return `lo` if
`f_lo == 0`, the candidate if it evaluates to zero, and a bracket on the first
sign change against `f_lo`; otherwise keep scanning. -/
def scanCandidates (f : ℚ → ℚ) (lo fLo : ℚ) : List ℚ → ScanResult
  | [] => .noBracket
  | c :: rest =>
    let fc := f c
    if fLo = 0 then .ret lo
    else if fc = 0 then .ret c
    else if signChange fLo fc = true then .bracket c fc
    else scanCandidates f lo fLo rest

/-- The bisection loop of `xirr` with explicit fuel (`max_iter` in the source):
stop at a midpoint whose value is within `1e-10` of zero, keep the sign-change
bracket otherwise, and return the final midpoint when the fuel runs out. -/
def bisect (f : ℚ → ℚ) : ℕ → ℚ → ℚ → ℚ → ℚ
  | 0, lo, hi, _ => (lo + hi) / 2
  | n + 1, lo, hi, fLo =>
    let mid := (lo + hi) / 2
    let fMid := f mid
    if |fMid| < 1 / 10 ^ 10 then mid
    else if signChange fLo fMid = true then bisect f n lo mid fLo
    else bisect f n mid hi fMid

/-- Embedding of `xirr`.  `cashflows` is the dated cashflow list (day number,
amount); `f` abstracts `rate ↦ _xnpv(rate, cashflows)`, whose fractional real
exponentiation has no exact rational embedding — the solver's own logic
(minimum length, sign check, low bound `-0.9999`, candidate scan, 200-iteration
bisection) is embedded literally. -/
def xirr (f : ℚ → ℚ) (cashflows : List (ℤ × ℚ)) : Option ℚ :=
  if cashflows.length < 2 then none
  else
    let hasPos := cashflows.any fun p => decide (0 < p.2)
    let hasNeg := cashflows.any fun p => decide (p.2 < 0)
    if ¬(hasPos = true ∧ hasNeg = true) then none
    else
      let lo : ℚ := -9999 / 10000
      let fLo := f lo
      match scanCandidates f lo fLo hiCandidates with
      | .ret r => some r
      | .bracket hi _ => some (bisect f 200 lo hi fLo)
      | .noBracket => none

/-! ### Helper lemmas -/

theorem le_clip (mMin mMax m : ℚ) : mMin ≤ clip mMin mMax m :=
  le_max_left _ _

theorem clip_le (mMin mMax m : ℚ) (h : mMin ≤ mMax) : clip mMin mMax m ≤ mMax :=
  max_le h (min_le_left _ _)

theorem clip_le_one (mMin mMax m : ℚ) (h1 : mMin ≤ 1) (hm : m ≤ 1) :
    clip mMin mMax m ≤ 1 :=
  max_le h1 ((min_le_right _ _).trans hm)

theorem applyTrendGuard_cases (g ok : Bool) (m : ℚ) :
    applyTrendGuard g ok m = m ∨ applyTrendGuard g ok m = min m 1 := by
  unfold applyTrendGuard
  split
  · exact Or.inr rfl
  · exact Or.inl rfl

theorem applyTrendGuard_bounds (g ok : Bool) (m mMin mMax : ℚ)
    (hm1 : mMin ≤ 1) (hlo : mMin ≤ m) (hhi : m ≤ mMax) :
    mMin ≤ applyTrendGuard g ok m ∧ applyTrendGuard g ok m ≤ mMax := by
  rcases applyTrendGuard_cases g ok m with h | h <;> rw [h]
  · exact ⟨hlo, hhi⟩
  · exact ⟨le_min hlo hm1, (min_le_left _ _).trans hhi⟩

/-! ### C2 -/

/-- C2: for every z-score value and every policy variant (fixed, the two linear
tilts, trend-guarded tilt v2, piecewise adaptive v3), under any configuration
whose multiplier floor and ceiling bracket the neutral value 1 (as every
configuration in the repository does), the final spend multiplier produced
after all floors, guards and clips satisfies `m_min ≤ m ≤ m_max`. -/
theorem multiplier_bounded (k mMin mMax zFloor zEntry zFull valCap z zVal : ℚ)
    (guard ok : Bool) (hm1 : mMin ≤ 1) (hm2 : 1 ≤ mMax) :
    (mMin ≤ fixedMultiplier ∧ fixedMultiplier ≤ mMax) ∧
    (mMin ≤ momentumMultiplier k mMin mMax z ∧
      momentumMultiplier k mMin mMax z ≤ mMax) ∧
    (mMin ≤ dynamicMultiplier k mMin mMax z guard ok ∧
      dynamicMultiplier k mMin mMax z guard ok ≤ mMax) ∧
    (mMin ≤ momentumV2Multiplier k mMin mMax zFloor z guard ok ∧
      momentumV2Multiplier k mMin mMax zFloor z guard ok ≤ mMax) ∧
    (mMin ≤ momentumV3Multiplier mMin mMax zFloor zEntry zFull valCap z zVal guard ok ∧
      momentumV3Multiplier mMin mMax zFloor zEntry zFull valCap z zVal guard ok ≤ mMax) := by
  have hmm : mMin ≤ mMax := hm1.trans hm2
  refine ⟨⟨hm1, hm2⟩, ⟨le_clip _ _ _, clip_le _ _ _ hmm⟩, ?_, ?_, ?_⟩
  · exact applyTrendGuard_bounds guard ok _ mMin mMax hm1 (le_clip _ _ _) (clip_le _ _ _ hmm)
  · exact applyTrendGuard_bounds guard ok _ mMin mMax hm1 (le_clip _ _ _) (clip_le _ _ _ hmm)
  · exact ⟨le_clip _ _ _, clip_le _ _ _ hmm⟩

/-- Witness for C2 at the DynamicDCA defaults `m_min = 0.3`, `m_max = 1.8`. -/
theorem multiplier_bounded_witness :
    ((3 : ℚ)/10 ≤ 1 ∧ (1 : ℚ) ≤ 9/5) ∧
    ((3 : ℚ)/10 ≤ dynamicMultiplier (1/2) (3/10) (9/5) 2 true false ∧
      dynamicMultiplier (1/2) (3/10) (9/5) 2 true false ≤ 9/5) :=
  ⟨⟨by norm_num, by norm_num⟩,
    (multiplier_bounded (1/2) (3/10) (9/5) (-1) (1/2) 2 2 2 0 true false
      (by norm_num) (by norm_num)).2.2.1⟩

/-! ### C3 -/

theorem mfz_low (mMin mMax zFloor zEntry zFull z : ℚ) (hz : z ≤ zFloor) :
    multiplier_from_z mMin mMax zFloor zEntry zFull z = mMin := by
  unfold multiplier_from_z
  rw [if_pos hz]

theorem mfz_rampLow (mMin mMax zFloor zEntry zFull z : ℚ)
    (hf : zFloor < 0) (he : 0 < zEntry) (h1 : zFloor ≤ z) (h2 : z ≤ 0) :
    multiplier_from_z mMin mMax zFloor zEntry zFull z
      = mMin + (z - zFloor) / (0 - zFloor) * (1 - mMin) := by
  unfold multiplier_from_z
  rcases eq_or_lt_of_le h1 with h | hgt
  · rw [if_pos h.ge]
    rw [← h]
    simp
  · rw [if_neg (not_le.mpr hgt)]
    rcases eq_or_lt_of_le h2 with h0 | hlt0
    · have hne : (0 : ℚ) - zFloor ≠ 0 := by linarith
      rw [if_neg (by rintro ⟨-, h⟩; exact absurd (h0 ▸ h) (lt_irrefl 0)),
        if_pos ⟨h0.ge, by rw [h0]; exact he⟩, h0, div_self hne]
      ring
    · rw [if_pos ⟨hgt, hlt0⟩, if_neg (by linarith)]

theorem mfz_mid (mMin mMax zFloor zEntry zFull z : ℚ)
    (hf : zFloor < 0) (hef : zEntry < zFull) (h1 : 0 ≤ z) (h2 : z ≤ zEntry) :
    multiplier_from_z mMin mMax zFloor zEntry zFull z = 1 := by
  unfold multiplier_from_z
  rw [if_neg (by linarith), if_neg (by rintro ⟨-, h⟩; linarith)]
  rcases eq_or_lt_of_le h2 with h0 | hlt
  · rw [if_neg (by rintro ⟨-, h⟩; exact absurd (h0 ▸ h) (lt_irrefl zEntry)),
      if_pos ⟨h0.ge, by rw [h0]; linarith⟩, if_neg (by linarith), h0]
    simp
  · rw [if_pos ⟨h1, hlt⟩]

theorem mfz_rampHigh (mMin mMax zFloor zEntry zFull z : ℚ)
    (hf : zFloor < 0) (he : 0 < zEntry) (hef : zEntry < zFull)
    (h1 : zEntry ≤ z) (h2 : z ≤ zFull) :
    multiplier_from_z mMin mMax zFloor zEntry zFull z
      = 1 + (z - zEntry) / (zFull - zEntry) * (mMax - 1) := by
  unfold multiplier_from_z
  rw [if_neg (by linarith), if_neg (by rintro ⟨-, h⟩; linarith),
    if_neg (by rintro ⟨-, h⟩; linarith), if_pos ⟨h1, h2⟩, if_neg (by linarith)]

theorem mfz_high (mMin mMax zFloor zEntry zFull z : ℚ)
    (hf : zFloor < 0) (he : 0 < zEntry) (hef : zEntry < zFull) (hz : zFull ≤ z) :
    multiplier_from_z mMin mMax zFloor zEntry zFull z = mMax := by
  rcases eq_or_lt_of_le hz with h0 | hlt
  · rw [mfz_rampHigh mMin mMax zFloor zEntry zFull z hf he hef (by linarith) h0.ge, ← h0]
    have hne : zFull - zEntry ≠ 0 := by linarith
    field_simp
  · unfold multiplier_from_z
    rw [if_neg (by linarith), if_neg (by rintro ⟨-, h⟩; linarith),
      if_neg (by rintro ⟨-, h⟩; linarith), if_neg (by rintro ⟨-, h⟩; linarith),
      if_pos hlt]

/-- C3 counterexample: the claim quantifies over all parameters with
`z_floor < 0 < z_entry < z_full`, but with a floor above the neutral value
(`m_min = 2`) the ramp between `z_floor` and `0` is strictly decreasing, so the
multiplier is not non-decreasing within that region. -/
theorem piecewise_multiplier_claim_counterexample :
    ((-1 : ℚ) < 0 ∧ (0 : ℚ) < 1/2 ∧ (1/2 : ℚ) < 2) ∧
    ((-1 : ℚ) < -3/4 ∧ (-3/4 : ℚ) ≤ -1/4 ∧ (-1/4 : ℚ) < 0) ∧
    multiplier_from_z 2 3 (-1) (1/2) 2 (-1/4)
      < multiplier_from_z 2 3 (-1) (1/2) 2 (-3/4) := by
  refine ⟨by norm_num, by norm_num, ?_⟩
  norm_num [multiplier_from_z]

/-- C3 (amended with `m_min ≤ 1 ≤ m_max`, which every configuration in the
repository satisfies): for all parameters with `z_floor < 0 < z_entry < z_full`
and `m_min ≤ 1 ≤ m_max`, the piecewise adaptive multiplier is non-decreasing
within each of its five regions and continuous at each breakpoint: it is the
constant `m_min` up to `z_floor`, agrees on the whole closed interval
`[z_floor, 0]` with the linear ramp whose endpoint values are `m_min` and `1`,
is the constant `1` on `[0, z_entry]`, agrees on `[z_entry, z_full]` with the
linear ramp whose endpoint values are `1` and `m_max`, and is the constant
`m_max` from `z_full` on; in particular its value is `m_min` at `z_floor`
(from both sides), `1` at `0` and at `z_entry`, and `m_max` at `z_full`. -/
theorem piecewise_multiplier_shape (mMin mMax zFloor zEntry zFull : ℚ)
    (hf : zFloor < 0) (he : 0 < zEntry) (hef : zEntry < zFull)
    (hm1 : mMin ≤ 1) (hm2 : 1 ≤ mMax) :
    (∀ z, z ≤ zFloor → multiplier_from_z mMin mMax zFloor zEntry zFull z = mMin) ∧
    (∀ z, zFloor ≤ z → z ≤ 0 →
      multiplier_from_z mMin mMax zFloor zEntry zFull z
        = mMin + (z - zFloor) / (0 - zFloor) * (1 - mMin)) ∧
    (∀ z, 0 ≤ z → z ≤ zEntry → multiplier_from_z mMin mMax zFloor zEntry zFull z = 1) ∧
    (∀ z, zEntry ≤ z → z ≤ zFull →
      multiplier_from_z mMin mMax zFloor zEntry zFull z
        = 1 + (z - zEntry) / (zFull - zEntry) * (mMax - 1)) ∧
    (∀ z, zFull ≤ z → multiplier_from_z mMin mMax zFloor zEntry zFull z = mMax) ∧
    (multiplier_from_z mMin mMax zFloor zEntry zFull zFloor = mMin ∧
      multiplier_from_z mMin mMax zFloor zEntry zFull 0 = 1 ∧
      multiplier_from_z mMin mMax zFloor zEntry zFull zEntry = 1 ∧
      multiplier_from_z mMin mMax zFloor zEntry zFull zFull = mMax) ∧
    (∀ z1 z2, zFloor ≤ z1 → z1 ≤ z2 → z2 ≤ 0 →
      multiplier_from_z mMin mMax zFloor zEntry zFull z1
        ≤ multiplier_from_z mMin mMax zFloor zEntry zFull z2) ∧
    (∀ z1 z2, zEntry ≤ z1 → z1 ≤ z2 → z2 ≤ zFull →
      multiplier_from_z mMin mMax zFloor zEntry zFull z1
        ≤ multiplier_from_z mMin mMax zFloor zEntry zFull z2) := by
  have hspan1 : (0 : ℚ) < 0 - zFloor := by linarith
  have hspan2 : (0 : ℚ) < zFull - zEntry := by linarith
  refine ⟨fun z hz => mfz_low _ _ _ _ _ _ hz,
    fun z h1 h2 => mfz_rampLow _ _ _ _ _ _ hf he h1 h2,
    fun z h1 h2 => mfz_mid _ _ _ _ _ _ hf hef h1 h2,
    fun z h1 h2 => mfz_rampHigh _ _ _ _ _ _ hf he hef h1 h2,
    fun z hz => mfz_high _ _ _ _ _ _ hf he hef hz,
    ⟨mfz_low _ _ _ _ _ _ le_rfl, mfz_mid _ _ _ _ _ _ hf hef le_rfl he.le,
      mfz_mid _ _ _ _ _ _ hf hef he.le le_rfl, mfz_high _ _ _ _ _ _ hf he hef le_rfl⟩,
    ?_, ?_⟩
  · intro z1 z2 ha hb hc
    rw [mfz_rampLow _ _ _ _ _ _ hf he ha (hb.trans hc),
      mfz_rampLow _ _ _ _ _ _ hf he (ha.trans hb) hc]
    have hstep : (z1 - zFloor) / (0 - zFloor) ≤ (z2 - zFloor) / (0 - zFloor) :=
      div_le_div_of_nonneg_right (by linarith) hspan1.le
    nlinarith [mul_le_mul_of_nonneg_right hstep (by linarith : (0 : ℚ) ≤ 1 - mMin)]
  · intro z1 z2 ha hb hc
    rw [mfz_rampHigh _ _ _ _ _ _ hf he hef ha (hb.trans hc),
      mfz_rampHigh _ _ _ _ _ _ hf he hef (ha.trans hb) hc]
    have hstep : (z1 - zEntry) / (zFull - zEntry) ≤ (z2 - zEntry) / (zFull - zEntry) :=
      div_le_div_of_nonneg_right (by linarith) hspan2.le
    nlinarith [mul_le_mul_of_nonneg_right hstep (by linarith : (0 : ℚ) ≤ mMax - 1)]

/-- Witness for C3 at the MomentumDCAv3 defaults
`m_min = 0.5, m_max = 1.5, z_floor = -1, z_entry = 0.5, z_full = 2`. -/
theorem piecewise_multiplier_shape_witness :
    ((-1 : ℚ) < 0 ∧ (0 : ℚ) < 1/2 ∧ (1/2 : ℚ) < 2 ∧ (1/2 : ℚ) ≤ 1 ∧ (1 : ℚ) ≤ 3/2) ∧
    (multiplier_from_z (1/2) (3/2) (-1) (1/2) 2 (-1) = 1/2 ∧
      multiplier_from_z (1/2) (3/2) (-1) (1/2) 2 0 = 1 ∧
      multiplier_from_z (1/2) (3/2) (-1) (1/2) 2 (1/2) = 1 ∧
      multiplier_from_z (1/2) (3/2) (-1) (1/2) 2 2 = 3/2) :=
  ⟨by norm_num,
    (piecewise_multiplier_shape (1/2) (3/2) (-1) (1/2) 2 (by norm_num) (by norm_num)
      (by norm_num) (by norm_num) (by norm_num)).2.2.2.2.2.1⟩

/-! ### C5 -/

/-- C5: on the equity series `[100, 110, 90, 95, 115]` at dates `1..5` the
detector returns the episode with peak 110 at date 2, trough 90 at date 3 and
recovery at date 5 (the first date whose value is at least 110); the episode's
drawdown is `90/110 - 1 = -2/11`, reported by the detector as the positive
percentage `maxddPct = 200/11`, and `-2/11` as a percentage is `-18.18%` up to
the displayed two decimal places (within `0.005`). -/
theorem drawdown_concrete_series :
    compute_max_drawdown_period [(1, 100), (2, 110), (3, 90), (4, 95), (5, 115)] =
      some { maxddPct := 200/11, peakDate := 2, troughDate := 3,
             recoveryDate := some 5, peakValue := 110, troughValue := 90 } ∧
    (90 : ℚ) / 110 - 1 = -2/11 ∧
    |(-2/11 : ℚ) * 100 - (-1818/100)| < 5/1000 := by
  refine ⟨?_, by norm_num, by rw [abs_lt]; constructor <;> norm_num⟩
  norm_num [compute_max_drawdown_period, List.foldl, ddStep, List.filter, findRecovery]

/-! ### C1 -/

/-- C1: on a scheduled investment bar whose total desired spend exceeds
`max_deployable = cash / reserve_multiplier` (positive, or the bar would have
been skipped), every asset's spend is multiplied by the single factor
`scale = max_deployable / total_desired`, the emitted order values (each
`(spend*scale/price) * price` for a positive price) sum to exactly
`max_deployable`, and the ratio between any two assets' order values equals
the ratio of their pre-scaling spends. -/
theorem rescale_budget_and_ratio_preservation
    (desired : List (ℚ × ℚ)) (maxDeployable : ℚ)
    (hpos : ∀ p ∈ desired, 0 < p.1 ∧ 0 < p.2)
    (hcap : 0 < maxDeployable)
    (hover : maxDeployable < (desired.map Prod.snd).sum) :
    computeScale maxDeployable ((desired.map Prod.snd).sum)
        = maxDeployable / (desired.map Prod.snd).sum ∧
    (∀ p ∈ desired,
      orderValue (computeScale maxDeployable ((desired.map Prod.snd).sum)) p
        = p.2 * computeScale maxDeployable ((desired.map Prod.snd).sum)) ∧
    (orderValues (computeScale maxDeployable ((desired.map Prod.snd).sum)) desired).sum
        = maxDeployable ∧
    (∀ p ∈ desired, ∀ q ∈ desired,
      orderValue (computeScale maxDeployable ((desired.map Prod.snd).sum)) p /
        orderValue (computeScale maxDeployable ((desired.map Prod.snd).sum)) q
        = p.2 / q.2) := by
  set total := (desired.map Prod.snd).sum with htotal
  have htpos : 0 < total := hcap.trans hover
  have hscale : computeScale maxDeployable total = maxDeployable / total := by
    unfold computeScale
    rw [if_pos hover]
  set sc := computeScale maxDeployable total with hsc
  have hscpos : 0 < sc := by
    have h := div_pos hcap htpos
    rw [← hscale] at h
    exact h
  have hval : ∀ p ∈ desired, orderValue sc p = p.2 * sc := by
    intro p hp
    unfold orderValue
    exact div_mul_cancel₀ _ (ne_of_gt (hpos p hp).1)
  refine ⟨hscale, hval, ?_, ?_⟩
  · unfold orderValues
    rw [List.map_congr_left hval, List.sum_map_mul_right, ← htotal, hscale,
      mul_div_cancel₀ _ (ne_of_gt htpos)]
  · intro p hp q hq
    rw [hval p hp, hval q hq, mul_div_mul_right _ _ (ne_of_gt hscpos)]

/-- Witness for C1: two assets priced 10 and 20 with desired spends 30 and 90,
against a deployable budget of 60. -/
theorem rescale_budget_and_ratio_preservation_witness :
    ((0 : ℚ) < 60 ∧ (60 : ℚ) < (([((10 : ℚ), (30 : ℚ)), (20, 90)].map Prod.snd).sum)) ∧
    (orderValues (computeScale 60 (([((10 : ℚ), (30 : ℚ)), (20, 90)].map Prod.snd).sum))
        [((10 : ℚ), (30 : ℚ)), (20, 90)]).sum = 60 :=
  ⟨⟨by norm_num, by norm_num⟩,
    (rescale_budget_and_ratio_preservation [((10 : ℚ), (30 : ℚ)), (20, 90)] 60
      (by intro p hp; fin_cases hp <;> norm_num) (by norm_num) (by norm_num)).2.2.1⟩

/-! ### C7 -/

/-- C7: the schedule gate evaluates an investment decision exactly when no
investment has occurred yet (`last < 0`) or `len - last ≥ interval`; a blocked
bar changes nothing and emits nothing; every evaluated bar — including bars
skipped because `max_deployable ≤ 0` or `total_desired ≤ 0`, which emit no
orders — sets `last_invest_bar` to the current bar; consequently, after an
evaluated bar `len ≥ 0`, every later bar closer than `interval` is blocked and
the bar `len + interval` is evaluated again: a skipped investment is never
retried on the following bar. -/
theorem schedule_gating_and_advance (interval : ℤ) (maxDeployable totalDesired : ℚ)
    (len lastInvestBar : ℤ) :
    (scheduleBlocks interval len lastInvestBar = false ↔
      lastInvestBar < 0 ∨ interval ≤ len - lastInvestBar) ∧
    (scheduleBlocks interval len lastInvestBar = true →
      nextSchedule interval maxDeployable totalDesired len lastInvestBar
        = (false, lastInvestBar)) ∧
    (scheduleBlocks interval len lastInvestBar = false →
      (nextSchedule interval maxDeployable totalDesired len lastInvestBar).2 = len) ∧
    (scheduleBlocks interval len lastInvestBar = false →
      maxDeployable ≤ 0 ∨ totalDesired ≤ 0 →
      nextSchedule interval maxDeployable totalDesired len lastInvestBar
        = (false, len)) ∧
    (0 ≤ len →
      (∀ lenNext, lenNext - len < interval → scheduleBlocks interval lenNext len = true) ∧
      scheduleBlocks interval (len + interval) len = false) := by
  refine ⟨?_, ?_, ?_, ?_, ?_⟩
  · unfold scheduleBlocks
    simp only [Bool.and_eq_false_iff, decide_eq_false_iff_not, not_le, not_lt]
  · intro h
    unfold nextSchedule
    rw [if_pos h]
  · intro h
    unfold nextSchedule
    rw [if_neg (by simp [h])]
    by_cases h1 : maxDeployable ≤ 0
    · rw [if_pos h1]
    · rw [if_neg h1]
      by_cases h2 : totalDesired ≤ 0
      · rw [if_pos h2]
      · rw [if_neg h2]
  · intro h hskip
    unfold nextSchedule
    rw [if_neg (by simp [h])]
    by_cases h1 : maxDeployable ≤ 0
    · rw [if_pos h1]
    · rw [if_neg h1]
      rcases hskip with h2 | h2
      · exact absurd h2 h1
      · rw [if_pos h2]
  · intro hlen
    constructor
    · intro lenNext hclose
      unfold scheduleBlocks
      simp only [Bool.and_eq_true, decide_eq_true_eq]
      omega
    · unfold scheduleBlocks
      simp only [Bool.and_eq_false_iff, decide_eq_false_iff_not, not_le, not_lt]
      omega

/-- Witness for C7 with `interval = 10`: bar 30 after an investment at bar 25 is
blocked, a cash-skipped evaluation at bar 30 after bar 15 still advances the
marker to 30, and bars 31..39 stay blocked while bar 40 is evaluated. -/
theorem schedule_gating_and_advance_witness :
    (scheduleBlocks 10 30 25 = true →
      nextSchedule 10 (-1) 5 30 25 = (false, 25)) ∧
    (scheduleBlocks 10 30 15 = false → (-1 : ℚ) ≤ 0 ∨ (5 : ℚ) ≤ 0 →
      nextSchedule 10 (-1) 5 30 15 = (false, 30)) ∧
    ((0 : ℤ) ≤ 30 →
      (∀ lenNext, lenNext - 30 < 10 → scheduleBlocks 10 lenNext 30 = true) ∧
      scheduleBlocks 10 (30 + 10) 30 = false) :=
  ⟨(schedule_gating_and_advance 10 (-1) 5 30 25).2.1,
    fun h hs => (schedule_gating_and_advance 10 (-1) 5 30 15).2.2.2.1 h hs,
    fun h => (schedule_gating_and_advance 10 (-1) 5 30 30).2.2.2.2 h⟩

/-! ### C8 -/

theorem trend_ok_iff (slopeLookback lenSlow : ℤ) (close : ℚ) (slow : ℤ → ℚ)
    (hlb : 0 < slopeLookback) (hlen : slopeLookback ≤ lenSlow - 1) :
    trend_ok true slopeLookback lenSlow close slow = true ↔
      (slow 0 < close ∧ slow (-slopeLookback) < slow 0) := by
  unfold trend_ok
  rw [if_neg (by simp), min_eq_left hlen, if_neg (not_le.mpr hlb)]
  simp only [Bool.and_eq_true, decide_eq_true_eq, sub_pos]

theorem applyTrendGuard_boost (ok : Bool) (m : ℚ)
    (h : 1 < applyTrendGuard true ok m) : ok = true := by
  by_contra hok
  have hok' : ok = false := by
    cases ok
    · rfl
    · exact absurd rfl hok
  unfold applyTrendGuard at h
  by_cases hm : 1 < m
  · rw [if_pos ⟨rfl, hm, hok'⟩] at h
    exact absurd (min_le_right m 1) (not_le.mpr h)
  · rw [if_neg (by rintro ⟨-, h2, -⟩; exact hm h2)] at h
    exact hm h

theorem applyTrendGuard_cap (ok : Bool) (m : ℚ) (hok : ok = false) :
    applyTrendGuard true ok m ≤ 1 := by
  unfold applyTrendGuard
  by_cases hm : 1 < m
  · rw [if_pos ⟨rfl, hm, hok⟩]
    exact min_le_right m 1
  · rw [if_neg (by rintro ⟨-, h2, -⟩; exact hm h2)]
    exact not_lt.mp hm

/-- C8: in the trend-guarded variants (DynamicDCA, MomentumDCAv2,
MomentumDCAv3 with the guard enabled and enough history that
`lb = slope_lookback`), a final multiplier above 1.0 is only ever produced
when the price is above the slow average and the slow average now exceeds its
value `slope_lookback` bars ago; if either condition fails the final
multiplier is at most 1.0; and a multiplier at or below 1.0 always passes the
guard step unchanged. -/
theorem trend_guard_boost_gate (slopeLookback lenSlow : ℤ) (close : ℚ) (slow : ℤ → ℚ)
    (k mMin mMax zFloor zEntry zFull valCap z zVal : ℚ)
    (hlb : 0 < slopeLookback) (hlen : slopeLookback ≤ lenSlow - 1) (hm1 : mMin ≤ 1) :
    (1 < dynamicMultiplier k mMin mMax z true
        (trend_ok true slopeLookback lenSlow close slow) →
      slow 0 < close ∧ slow (-slopeLookback) < slow 0) ∧
    (1 < momentumV2Multiplier k mMin mMax zFloor z true
        (trend_ok true slopeLookback lenSlow close slow) →
      slow 0 < close ∧ slow (-slopeLookback) < slow 0) ∧
    (1 < momentumV3Multiplier mMin mMax zFloor zEntry zFull valCap z zVal true
        (trend_ok true slopeLookback lenSlow close slow) →
      slow 0 < close ∧ slow (-slopeLookback) < slow 0) ∧
    (¬(slow 0 < close ∧ slow (-slopeLookback) < slow 0) →
      dynamicMultiplier k mMin mMax z true
          (trend_ok true slopeLookback lenSlow close slow) ≤ 1 ∧
      momentumV2Multiplier k mMin mMax zFloor z true
          (trend_ok true slopeLookback lenSlow close slow) ≤ 1 ∧
      momentumV3Multiplier mMin mMax zFloor zEntry zFull valCap z zVal true
          (trend_ok true slopeLookback lenSlow close slow) ≤ 1) ∧
    (∀ (g ok2 : Bool) (m : ℚ), m ≤ 1 → applyTrendGuard g ok2 m = m) := by
  have hiff := trend_ok_iff slopeLookback lenSlow close slow hlb hlen
  refine ⟨?_, ?_, ?_, ?_, ?_⟩
  · intro h
    exact hiff.mp (applyTrendGuard_boost _ _ h)
  · intro h
    exact hiff.mp (applyTrendGuard_boost _ _ h)
  · intro h
    unfold momentumV3Multiplier at h
    have h2 : 1 < applyTrendGuard true (trend_ok true slopeLookback lenSlow close slow)
        (if valCap ≤ zVal ∧ 1 < multiplier_from_z mMin mMax zFloor zEntry zFull z then 1
         else multiplier_from_z mMin mMax zFloor zEntry zFull z) := by
      by_contra hle
      exact absurd (clip_le_one _ _ _ hm1 (not_lt.mp hle)) (not_le.mpr h)
    exact hiff.mp (applyTrendGuard_boost _ _ h2)
  · intro hcond
    have hok : trend_ok true slopeLookback lenSlow close slow = false := by
      cases hh : trend_ok true slopeLookback lenSlow close slow
      · rfl
      · exact absurd (hiff.mp hh) hcond
    exact ⟨applyTrendGuard_cap _ _ hok, applyTrendGuard_cap _ _ hok,
      clip_le_one _ _ _ hm1 (applyTrendGuard_cap _ _ hok)⟩
  · intro g ok2 m hm
    unfold applyTrendGuard
    rw [if_neg (by rintro ⟨-, h2, -⟩; exact absurd hm (not_le.mpr h2))]

/-- Witness for C8: lookback 4 within a 40-bar slow average, a price below the
slow average, and a multiplier request of 2: the guarded variants stay at or
below 1. -/
theorem trend_guard_boost_gate_witness :
    ((0 : ℤ) < 4 ∧ (4 : ℤ) ≤ 40 - 1 ∧ (1 : ℚ)/2 ≤ 1) ∧
    (¬((100 : ℚ) < 90 ∧ (100 : ℚ) < 100) →
      dynamicMultiplier (1/2) (1/2) (3/2) 2 true
          (trend_ok true 4 40 90 (fun _ => 100)) ≤ 1 ∧
      momentumV2Multiplier (1/2) (1/2) (3/2) (-1) 2 true
          (trend_ok true 4 40 90 (fun _ => 100)) ≤ 1 ∧
      momentumV3Multiplier (1/2) (3/2) (-1) (1/2) 2 2 2 0 true
          (trend_ok true 4 40 90 (fun _ => 100)) ≤ 1) :=
  ⟨⟨by norm_num, by norm_num, by norm_num⟩, by
    intro h
    have hw := (trend_guard_boost_gate 4 40 90 (fun _ => 100)
      (1/2) (1/2) (3/2) (-1) (1/2) 2 2 2 0
      (by norm_num) (by norm_num) (by norm_num)).2.2.2.1
    exact hw (by push_neg; intro h2; linarith)⟩

/-! ### C6 and C10 -/

theorem cfa_foldl_returns (flow : ℕ → ℚ) :
    ∀ (bars : List (ℕ × ℚ)) (prev : ℕ × ℚ) (rs : List (ℕ × ℚ)),
      (bars.foldl (cfaStep flow) { prev := some prev, returns := rs }).returns
        = rs ++ cfaReturnsFrom flow prev bars := by
  intro bars
  induction bars with
  | nil => intro prev rs; simp [cfaReturnsFrom]
  | cons b bs ih =>
    intro prev rs
    rw [List.foldl_cons]
    show (bs.foldl (cfaStep flow) (cfaStep flow { prev := some prev, returns := rs } b)).returns = _
    rw [show cfaStep flow { prev := some prev, returns := rs } b
        = { prev := some b,
            returns := rs ++ [(b.1, if prev.2 = 0 then 0 else (b.2 - flow prev.1) / prev.2 - 1)] }
      from rfl]
    rw [ih b _, cfaReturnsFrom, List.append_assoc]
    rfl

theorem cfaRun_cons (flow : ℕ → ℚ) (b : ℕ × ℚ) (bs : List (ℕ × ℚ)) :
    (cfaRun flow (b :: bs)).returns = cfaReturnsFrom flow b bs := by
  unfold cfaRun
  rw [List.foldl_cons]
  rw [show cfaStep flow { prev := none, returns := [] } b
      = { prev := some b, returns := [] } from rfl]
  rw [cfa_foldl_returns flow bs b []]
  rfl

theorem cfaReturnsFrom_length (flow : ℕ → ℚ) :
    ∀ (bars : List (ℕ × ℚ)) (prev : ℕ × ℚ),
      (cfaReturnsFrom flow prev bars).length = bars.length := by
  intro bars
  induction bars with
  | nil => intro prev; rfl
  | cons b bs ih => intro prev; rw [cfaReturnsFrom]; simp [ih b]

theorem cfaReturnsFrom_get (flow : ℕ → ℚ) :
    ∀ (bs : List (ℕ × ℚ)) (prev : ℕ × ℚ) (i : ℕ) (p bar : ℕ × ℚ),
      (prev :: bs)[i]? = some p → bs[i]? = some bar →
      (cfaReturnsFrom flow prev bs)[i]? =
        some (bar.1, if p.2 = 0 then 0 else (bar.2 - flow p.1) / p.2 - 1) := by
  intro bs
  induction bs with
  | nil => intro prev i p bar hp hbar; simp at hbar
  | cons b bs ih =>
    intro prev i p bar hp hbar
    cases i with
    | zero =>
      simp only [List.getElem?_cons_zero, Option.some_inj] at hp hbar
      rw [cfaReturnsFrom]
      simp [hp, hbar]
    | succ i =>
      simp only [List.getElem?_cons_succ] at hp hbar
      rw [cfaReturnsFrom]
      simp only [List.getElem?_cons_succ]
      exact ih b i p bar hp hbar

/-- C6: the analyzer records exactly one return per bar after the first (the
first bar yields no observation), and for every bar with index `i + 1` whose
previous bar carried a nonzero portfolio value `V_i`, the recorded return is
`(V_{i+1} - flow(date_i)) / V_i - 1`, where `flow(date_i)` is the external
cashflow recorded for the previous bar's date. -/
theorem cashflow_adjusted_returns_formula (flow : ℕ → ℚ) (bars : List (ℕ × ℚ)) :
    (cfaRun flow bars).returns.length = bars.length - 1 ∧
    (∀ (i : ℕ) (p bar : ℕ × ℚ), bars[i]? = some p → bars[i + 1]? = some bar →
      p.2 ≠ 0 →
      (cfaRun flow bars).returns[i]? = some (bar.1, (bar.2 - flow p.1) / p.2 - 1)) := by
  cases bars with
  | nil =>
    refine ⟨by simp [cfaRun], ?_⟩
    intro i p bar hp hbar hnz
    simp at hp
  | cons b bs =>
    rw [cfaRun_cons]
    refine ⟨by rw [cfaReturnsFrom_length]; rfl, ?_⟩
    intro i p bar hp hbar hnz
    have hbar2 : bs[i]? = some bar := by
      rw [List.getElem?_cons_succ] at hbar
      exact hbar
    rw [cfaReturnsFrom_get flow bs b i p bar hp hbar2, if_neg hnz]

/-- Witness for C6: two bars valued 100 then 110 with a deposit of 5 recorded
on the first bar's date give the single return `(110 - 5)/100 - 1 = 1/20`. -/
theorem cashflow_adjusted_returns_formula_witness :
    ((100 : ℚ) ≠ 0) ∧
    (cfaRun (fun _ => 5) [(1, 100), (2, 110)]).returns[0]? = some (2, 1/20) := by
  refine ⟨by norm_num, ?_⟩
  have h := (cashflow_adjusted_returns_formula (fun _ => 5) [(1, 100), (2, 110)]).2
    0 (1, 100) (2, 110) rfl rfl (by norm_num)
  rw [h]
  norm_num

/-- C10: when the previous bar's portfolio value is exactly zero, the analyzer
records a return of 0 for the current bar instead of dividing by zero. -/
theorem zero_prev_value_guard (flow : ℕ → ℚ) (bars : List (ℕ × ℚ)) :
    ∀ (i : ℕ) (p bar : ℕ × ℚ), bars[i]? = some p → bars[i + 1]? = some bar →
      p.2 = 0 →
      (cfaRun flow bars).returns[i]? = some (bar.1, 0) := by
  cases bars with
  | nil =>
    intro i p bar hp hbar hz
    simp at hp
  | cons b bs =>
    rw [cfaRun_cons]
    intro i p bar hp hbar hz
    have hbar2 : bs[i]? = some bar := by
      rw [List.getElem?_cons_succ] at hbar
      exact hbar
    rw [cfaReturnsFrom_get flow bs b i p bar hp hbar2, if_pos hz]

/-- Witness for C10: a first bar valued 0 followed by a bar valued 50 records
the return 0 rather than dividing by the zero previous value. -/
theorem zero_prev_value_guard_witness :
    ((0 : ℚ) = 0) ∧
    (cfaRun (fun _ => 5) [(1, 0), (2, 50)]).returns[0]? = some (2, 0) :=
  ⟨rfl, zero_prev_value_guard (fun _ => 5) [(1, 0), (2, 50)] 0 (1, 0) (2, 50) rfl rfl rfl⟩

/-! ### C4 and C9 -/

theorem scanCandidates_noBracket (f : ℚ → ℚ) (lo fLo : ℚ) :
    ∀ (cs : List ℚ), fLo ≠ 0 →
      (∀ c ∈ cs, f c ≠ 0 ∧ signChange fLo (f c) = false) →
      scanCandidates f lo fLo cs = .noBracket := by
  intro cs
  induction cs with
  | nil => intro _ _; rfl
  | cons c rest ih =>
    intro hlo hall
    rw [scanCandidates]
    rw [if_neg hlo, if_neg (hall c (List.mem_cons_self c rest)).1,
      if_neg (by simp [(hall c (List.mem_cons_self c rest)).2])]
    exact ih hlo fun x hx => hall x (List.mem_cons_of_mem c hx)

theorem scanCandidates_first_bracket (f : ℚ → ℚ) (lo fLo : ℚ) :
    ∀ (pre : List ℚ) (c : ℚ) (post : List ℚ), fLo ≠ 0 →
      (∀ c2 ∈ pre, f c2 ≠ 0 ∧ signChange fLo (f c2) = false) →
      f c ≠ 0 → signChange fLo (f c) = true →
      scanCandidates f lo fLo (pre ++ c :: post) = .bracket c (f c) := by
  intro pre
  induction pre with
  | nil =>
    intro c post hlo _ hc hsign
    rw [List.nil_append, scanCandidates, if_neg hlo, if_neg hc, if_pos hsign]
  | cons a pre ih =>
    intro c post hlo hall hc hsign
    rw [List.cons_append, scanCandidates, if_neg hlo,
      if_neg (hall a (List.mem_cons_self a pre)).1,
      if_neg (by simp [(hall a (List.mem_cons_self a pre)).2])]
    exact ih c post hlo (fun x hx => hall x (List.mem_cons_of_mem a hx)) hc hsign

/-- C4: the solver returns no result when the cashflow list is shorter than
two entries or lacks a positive or a negative amount; it evaluates the
present-value function at the fixed low bound `-0.9999` and at the ascending
candidates of `hiCandidates` in order until a sign change brackets a root,
returning no result when no candidate brackets one; on the first bracketing
candidate it runs the bisection with 200 iterations of fuel; and a bisection
step whose midpoint evaluates within `1e-10` of zero stops at that midpoint. -/
theorem xirr_solver_contract (f : ℚ → ℚ) (cashflows : List (ℤ × ℚ)) :
    (cashflows.length < 2 → xirr f cashflows = none) ∧
    (¬((cashflows.any fun p => decide (0 < p.2)) = true ∧
        (cashflows.any fun p => decide (p.2 < 0)) = true) →
      xirr f cashflows = none) ∧
    (f (-9999/10000) ≠ 0 →
      (∀ c ∈ hiCandidates, f c ≠ 0 ∧ signChange (f (-9999/10000)) (f c) = false) →
      xirr f cashflows = none) ∧
    (∀ (pre : List ℚ) (c : ℚ) (post : List ℚ),
      hiCandidates = pre ++ c :: post →
      f (-9999/10000) ≠ 0 →
      (∀ c2 ∈ pre, f c2 ≠ 0 ∧ signChange (f (-9999/10000)) (f c2) = false) →
      f c ≠ 0 → signChange (f (-9999/10000)) (f c) = true →
      2 ≤ cashflows.length →
      (cashflows.any fun p => decide (0 < p.2)) = true →
      (cashflows.any fun p => decide (p.2 < 0)) = true →
      xirr f cashflows = some (bisect f 200 (-9999/10000) c (f (-9999/10000)))) ∧
    (∀ (n : ℕ) (lo2 hi2 fLo2 : ℚ), |f ((lo2 + hi2) / 2)| < 1/10^10 →
      bisect f (n + 1) lo2 hi2 fLo2 = (lo2 + hi2) / 2) := by
  refine ⟨?_, ?_, ?_, ?_, ?_⟩
  · intro h
    simp only [xirr]
    rw [if_pos h]
  · intro h
    simp only [xirr]
    by_cases h2 : cashflows.length < 2
    · rw [if_pos h2]
    · rw [if_neg h2, if_pos h]
  · intro hlo hall
    simp only [xirr]
    by_cases h2 : cashflows.length < 2
    · rw [if_pos h2]
    · rw [if_neg h2]
      by_cases h3 : (cashflows.any fun p => decide (0 < p.2)) = true ∧
          (cashflows.any fun p => decide (p.2 < 0)) = true
      · rw [if_neg (not_not_intro h3),
          scanCandidates_noBracket f (-9999/10000) (f (-9999/10000)) hiCandidates hlo hall]
      · rw [if_pos h3]
  · intro pre c post hsplit hlo hpre hc hsign hlen hpos hneg
    simp only [xirr]
    rw [if_neg (by omega), if_neg (not_not_intro ⟨hpos, hneg⟩), hsplit,
      scanCandidates_first_bracket f (-9999/10000) (f (-9999/10000)) pre c post
        hlo hpre hc hsign]
  · intro n lo2 hi2 fLo2 h
    simp only [bisect]
    rw [if_pos h]

/-- Witness for C4: a cashflow list with no negative entry yields no result. -/
theorem xirr_solver_contract_witness :
    (¬((([((0 : ℤ), (1 : ℚ))]).any fun p => decide (0 < p.2)) = true ∧
        (([((0 : ℤ), (1 : ℚ))]).any fun p => decide (p.2 < 0)) = true)) ∧
    xirr (fun r => r) [((0 : ℤ), (1 : ℚ))] = none := by
  have hside : ¬((([((0 : ℤ), (1 : ℚ))]).any fun p => decide (0 < p.2)) = true ∧
      (([((0 : ℤ), (1 : ℚ))]).any fun p => decide (p.2 < 0)) = true) := by
    simp
  exact ⟨hside, (xirr_solver_contract (fun r => r) [((0 : ℤ), (1 : ℚ))]).2.1 hside⟩

/-- C9: once the candidate scan produces a sign-change bracket (and the
cashflow preconditions hold), the solver always returns a numeric rate — the
200-fuel bisection value — and a bisection whose fuel runs out returns the
midpoint of its final bracket rather than no result. -/
theorem xirr_bracket_numeric (f : ℚ → ℚ) (cashflows : List (ℤ × ℚ)) (hi fHi : ℚ)
    (hlen : 2 ≤ cashflows.length)
    (hpos : (cashflows.any fun p => decide (0 < p.2)) = true)
    (hneg : (cashflows.any fun p => decide (p.2 < 0)) = true)
    (hscan : scanCandidates f (-9999/10000) (f (-9999/10000)) hiCandidates
        = .bracket hi fHi) :
    xirr f cashflows = some (bisect f 200 (-9999/10000) hi (f (-9999/10000))) ∧
    (∀ (g : ℚ → ℚ) (lo2 hi2 fLo2 : ℚ), bisect g 0 lo2 hi2 fLo2 = (lo2 + hi2) / 2) := by
  refine ⟨?_, fun g lo2 hi2 fLo2 => rfl⟩
  simp only [xirr]
  rw [if_neg (by omega), if_neg (not_not_intro ⟨hpos, hneg⟩), hscan]

/-- Witness for C9: the affine function `r - 1/20` brackets between the
candidates 0 and 0.1, so the solver returns the bisection value. -/
theorem xirr_bracket_numeric_witness :
    (2 ≤ ([((0 : ℤ), (-1 : ℚ)), (1, 2)]).length) ∧
    xirr (fun r => r - 1/20) [((0 : ℤ), (-1 : ℚ)), (1, 2)]
      = some (bisect (fun r => r - 1/20) 200 (-9999/10000) (1/10)
          ((fun r => r - 1/20) (-9999/10000))) := by
  refine ⟨by norm_num, ?_⟩
  exact (xirr_bracket_numeric (fun r => r - 1/20) [((0 : ℤ), (-1 : ℚ)), (1, 2)]
    (1/10) (1/20) (by norm_num) (by simp) (by simp)
    (by norm_num [scanCandidates, hiCandidates, signChange])).1

end AlgoTrader
